import Mathlib

/-!
Shallow embedding of
`processor/resourcedetectionprocessor/internal/resourcedetection.go`
from opentelemetry-collector-contrib: the resource-detection provider
(`ResourceProvider`, `ResourceProviderFactory`) and its merge/flatten
helpers (`MergeResource`, `IsEmptyResource`, `AttributesToMap`,
`UnwrapAttribute`, `getSerializableArray`).

Modelling conventions:
* `pdata.AttributeValue` is the recursive tagged union below; `float64`
  payloads are carried opaquely by their bit pattern (a `Nat`) since the
  code never computes on doubles, it only stores and returns them.
* `pdata.AttributeMap` is an ordered association list, as in pdata (a
  slice of key/value pairs with unique keys, iterated in order); its
  `Insert` adds only when the key is absent, `Upsert` updates in place
  or appends.
* Go errors are the inductive `GoError`; fallible functions return
  `Except`.
* `context.Context` carries only real-time cancellation information, so
  it is not modelled; `Detector.Detect` is modelled by the result it
  produces.  To express "executes exactly once" the pipeline functions
  additionally return the sequence of invocations they perform, which
  is instrumentation, not behaviour.
-/

namespace ResourceDetection

/-- The variants of `pdata.AttributeValue` (BOOL, INT, DOUBLE, STRING,
ARRAY, MAP, and the unset/unrecognized NULL type). -/
inductive AttributeValue where
  | boolVal (b : Bool)
  | intVal (i : Int)
  | doubleVal (bits : Nat)
  | stringVal (s : String)
  | arrayVal (a : List AttributeValue)
  | mapVal (m : List (String × AttributeValue))
  | nullVal
deriving Repr

/-- `pdata.AttributeMap`: an ordered list of key/value pairs. -/
abbrev AttributeMap := List (String × AttributeValue)

/-- Whether the map has an entry for key `k` (Go map/slice membership). -/
def AttributeMap.containsKey (m : AttributeMap) (k : String) : Bool :=
  m.any (fun p => p.1 = k)

/-- First-match lookup, as pdata's `AttributeMap.Get` scans the slice. -/
def AttributeMap.find : AttributeMap → String → Option AttributeValue
  | [], _ => none
  | (k', v) :: rest, k => if k' = k then some v else AttributeMap.find rest k

/-- pdata `AttributeMap.Insert`: add the entry only when the key is absent. -/
def AttributeMap.insertAttr (m : AttributeMap) (k : String) (v : AttributeValue) :
    AttributeMap :=
  if m.containsKey k then m else m ++ [(k, v)]

/-- pdata `AttributeMap.Upsert`: update the existing entry in place, or
append when the key is absent. -/
def AttributeMap.upsertAttr (m : AttributeMap) (k : String) (v : AttributeValue) :
    AttributeMap :=
  if m.containsKey k then
    m.map (fun p => if p.1 = k then (k, v) else p)
  else m ++ [(k, v)]

/-- `pdata.Resource`: a wrapper around its attribute map. -/
structure Resource where
  attributes : AttributeMap
deriving Repr

/-- `pdata.NewResource()`: a resource with no attributes. -/
def NewResource : Resource := ⟨[]⟩

/-- `IsEmptyResource(res)`: `res.Attributes().Len() == 0`. -/
def IsEmptyResource (res : Resource) : Bool :=
  res.attributes.length == 0

/-- `MergeResource(to, from, overrideTo)`: no-op when `from` is empty,
otherwise range over `from`'s attributes, upserting when `overrideTo`
and inserting otherwise.  Go mutates `to` in place; here the updated
`to` is returned. -/
def MergeResource (toRes fromRes : Resource) (overrideTo : Bool) : Resource :=
  if IsEmptyResource fromRes then toRes
  else
    ⟨fromRes.attributes.foldl
      (fun acc p =>
        if overrideTo then acc.upsertAttr p.1 p.2 else acc.insertAttr p.1 p.2)
      toRes.attributes⟩

/-- The plain (`interface{}`) values produced by `UnwrapAttribute`:
scalars, lists, string-keyed maps, and Go's `nil`. -/
inductive PlainValue where
  | pbool (b : Bool)
  | pint (i : Int)
  | pdouble (bits : Nat)
  | pstring (s : String)
  | plist (l : List PlainValue)
  | pmap (m : List (String × PlainValue))
  | pnil
deriving Repr

mutual

/-- `UnwrapAttribute(v)`: switch on the value's type; scalars pass
through, arrays go to `getSerializableArray`, maps recurse through
`AttributesToMap`, and the default case yields `nil`. -/
def UnwrapAttribute : AttributeValue → PlainValue
  | .boolVal b => .pbool b
  | .intVal i => .pint i
  | .doubleVal d => .pdouble d
  | .stringVal s => .pstring s
  | .arrayVal a => .plist (getSerializableArray a)
  | .mapVal m => .pmap (AttributesToMap m)
  | .nullVal => .pnil

/-- `getSerializableArray(inArr)`: unwrap every element in order. -/
def getSerializableArray : List AttributeValue → List PlainValue
  | [] => []
  | v :: rest => UnwrapAttribute v :: getSerializableArray rest

/-- `AttributesToMap(am)`: one entry per attribute key, with the value
unwrapped.  (The Go result is an unordered `map[string]interface{}`;
the model keeps the range order.) -/
def AttributesToMap : List (String × AttributeValue) → List (String × PlainValue)
  | [] => []
  | (k, v) :: rest => (k, UnwrapAttribute v) :: AttributesToMap rest

end

/-- Go `error` values produced or propagated by this file:
`fmt.Errorf("invalid detector key: %v", t)`,
`fmt.Errorf("failed creating detector type %q: %w", t, err)`, and the
opaque errors a detector's `Detect` may return. -/
inductive GoError where
  | invalidDetectorKey (t : String)
  | failedCreatingDetector (t : String) (cause : GoError)
  | detectorError (msg : String)
deriving Repr, DecidableEq

/-- `DetectorType`: an opaque string identifier. -/
abbrev DetectorType := String

/-- `DetectorConfig` is `interface\x7b\x7d`; the claims never inspect it. -/
abbrev DetectorConfig := Unit

/-- A `Detector`, modelled by the outcome its `Detect` produces (the
`context.Context` argument carries only real-time cancellation and is
not modelled). -/
structure Detector where
  detect : Except GoError Resource

/-- `DetectorFactory`: constructor from a config to a detector or an
error (the `component.ProcessorCreateParams` argument only carries the
logger and is dropped). -/
abbrev DetectorFactory := DetectorConfig → Except GoError Detector

/-- `ResourceProviderFactory`: the registry map from detector type to
factory, modelled as an association list. -/
structure ResourceProviderFactory where
  detectors : List (DetectorType × DetectorFactory)

/-- Registry lookup `f.detectors[detectorType]`. -/
def ResourceProviderFactory.lookup (f : ResourceProviderFactory)
    (t : DetectorType) : Option DetectorFactory :=
  (f.detectors.find? (fun p => p.1 = t)).map Prod.snd

/-- `resourceResult`: the memoized outcome.  The zero-value
`pdata.Resource` left in `resource` on the error path is modelled as
the empty resource. -/
structure ResourceResult where
  resource : Resource
  err : Option GoError

/-- `ResourceProvider` (the logger field is dropped; `sync.Once` plus
the `detectedResource` pointer become the `Option` on the result). -/
structure ResourceProvider where
  timeout : Nat
  detectors : List Detector
  detectedResource : Option ResourceResult

/-- `NewResourceProvider(logger, timeout, detectors...)`. -/
def NewResourceProvider (timeout : Nat) (detectors : List Detector) :
    ResourceProvider :=
  { timeout := timeout, detectors := detectors, detectedResource := none }

/-- `getDetectors`: walk the requested types in order; a registry miss
aborts with `invalid detector key`, a constructor failure aborts with
the wrapped error, otherwise accumulate the detectors.  The second
component instruments which types' constructors were invoked, in
order. -/
def getDetectors (f : ResourceProviderFactory)
    (cfg : DetectorType → DetectorConfig) :
    List DetectorType → Except GoError (List Detector) × List DetectorType
  | [] => (.ok [], [])
  | t :: ts =>
    match f.lookup t with
    | none => (.error (.invalidDetectorKey t), [])
    | some detectorFactory =>
      match detectorFactory (cfg t) with
      | .error e => (.error (.failedCreatingDetector t e), [t])
      | .ok d =>
        match getDetectors f cfg ts with
        | (.ok ds, invoked) => (.ok (d :: ds), t :: invoked)
        | (.error e, invoked) => (.error e, t :: invoked)

/-- `CreateResourceProvider`: build the detectors, fail on error,
otherwise wrap them in a fresh provider.  The second component is the
constructor-invocation instrumentation from `getDetectors`. -/
def CreateResourceProvider (f : ResourceProviderFactory) (timeout : Nat)
    (cfg : DetectorType → DetectorConfig) (detectorTypes : List DetectorType) :
    Except GoError ResourceProvider × List DetectorType :=
  match getDetectors f cfg detectorTypes with
  | (.error e, invoked) => (.error e, invoked)
  | (.ok ds, invoked) => (.ok (NewResourceProvider timeout ds), invoked)

/-- The loop body of `detectResource`: call each detector in order; on
the first error stop (the result's `resource` stays the zero value and
`err` is set); on success insert-merge into the accumulator and
continue; after the last detector the accumulator is the success
value.  The second component counts the `Detect` invocations
performed. -/
def detectLoop : List Detector → Resource → ResourceResult × Nat
  | [], res => ({ resource := res, err := none }, 0)
  | d :: ds, res =>
    match d.detect with
    | .error e => ({ resource := NewResource, err := some e }, 1)
    | .ok r =>
      let rest := detectLoop ds (MergeResource res r false)
      (rest.1, rest.2 + 1)

/-- `ResourceProvider.detectResource`: start from `pdata.NewResource()`
and run the loop. -/
def detectResource (detectors : List Detector) : ResourceResult × Nat :=
  detectLoop detectors NewResource

/-- `ResourceProvider.Get`: under `sync.Once`, run `detectResource`
(with the timeout-bounded context) and store the result; always return
the stored resource and error.  Returns the (resource, error) pair,
the updated provider, and the number of `Detect` invocations this call
performed. -/
def ResourceProvider.Get (p : ResourceProvider) :
    (Resource × Option GoError) × ResourceProvider × Nat :=
  match p.detectedResource with
  | some r => ((r.resource, r.err), p, 0)
  | none =>
    let r := detectResource p.detectors
    ((r.1.resource, r.1.err), { p with detectedResource := some r.1 }, r.2)

/-- `n` successive calls to `Get` on one provider: the list of results
observed, the final provider, and the total `Detect` invocations. -/
def getSeq : ResourceProvider → Nat →
    List (Resource × Option GoError) × ResourceProvider × Nat
  | p, 0 => ([], p, 0)
  | p, n + 1 =>
    let step := p.Get
    let rest := getSeq step.2.1 n
    (step.1 :: rest.1, rest.2.1, step.2.2 + rest.2.2)

/-! Helper lemmas about attribute-map lookup and the merge fold. -/

namespace AttributeMap

theorem find_nil (k : String) : AttributeMap.find [] k = none := rfl

theorem find_cons (k' k : String) (v : AttributeValue) (m : AttributeMap) :
    AttributeMap.find ((k', v) :: m) k
      = if k' = k then some v else AttributeMap.find m k := rfl

theorem containsKey_nil (k : String) :
    AttributeMap.containsKey [] k = false := rfl

theorem containsKey_cons (k' k : String) (v : AttributeValue) (m : AttributeMap) :
    AttributeMap.containsKey ((k', v) :: m) k
      = (decide (k' = k) || m.containsKey k) := rfl

theorem containsKey_eq_false_iff (m : AttributeMap) (k : String) :
    m.containsKey k = false ↔ AttributeMap.find m k = none := by
  induction m with
  | nil => simp [containsKey_nil, find_nil]
  | cons p rest ih =>
    obtain ⟨k', v⟩ := p
    rw [containsKey_cons, find_cons]
    by_cases h : k' = k
    · simp [h]
    · simp [h, ih]

theorem find_append (m₁ m₂ : AttributeMap) (k : String) :
    AttributeMap.find (m₁ ++ m₂) k
      = (AttributeMap.find m₁ k).orElse (fun _ => AttributeMap.find m₂ k) := by
  induction m₁ with
  | nil => simp [find_nil, Option.orElse]
  | cons p rest ih =>
    obtain ⟨k', v⟩ := p
    by_cases h : k' = k <;>
      simp [List.cons_append, find_cons, h, ih, Option.orElse]

theorem find_eq_none_of_not_mem_keys (m : AttributeMap) (k : String)
    (h : k ∉ m.map Prod.fst) : AttributeMap.find m k = none := by
  induction m with
  | nil => rfl
  | cons p rest ih =>
    obtain ⟨k', v⟩ := p
    simp only [List.map_cons, List.mem_cons, not_or] at h
    rw [find_cons, if_neg (fun hk => h.1 hk.symm), ih h.2]

theorem find_insertAttr (m : AttributeMap) (k₁ k : String) (v₁ : AttributeValue) :
    AttributeMap.find (m.insertAttr k₁ v₁) k
      = (AttributeMap.find m k).orElse
          (fun _ => if k₁ = k then some v₁ else none) := by
  unfold AttributeMap.insertAttr
  by_cases hc : m.containsKey k₁
  · rw [if_pos hc]
    by_cases hk : k₁ = k
    · subst hk
      rcases h : AttributeMap.find m k₁ with _ | w
      · rw [(containsKey_eq_false_iff m k₁).mpr h] at hc; cases hc
      · simp [Option.orElse]
    · cases h : AttributeMap.find m k <;> simp [Option.orElse, hk]
  · rw [if_neg hc, find_append]
    simp [find_cons, find_nil]

theorem find_map_replace_ne (m : AttributeMap) (k₁ k : String)
    (v₁ : AttributeValue) (hk : k₁ ≠ k) :
    AttributeMap.find
        (m.map (fun p => if p.1 = k₁ then (k₁, v₁) else p)) k
      = AttributeMap.find m k := by
  induction m with
  | nil => rfl
  | cons p rest ih =>
    obtain ⟨k', v⟩ := p
    by_cases h : k' = k₁
    · subst h
      simp [find_cons, hk, ih]
    · simp [find_cons, h, ih]

theorem find_map_replace_self (m : AttributeMap) (k₁ : String)
    (v₁ : AttributeValue) (hc : m.containsKey k₁ = true) :
    AttributeMap.find
        (m.map (fun p => if p.1 = k₁ then (k₁, v₁) else p)) k₁
      = some v₁ := by
  induction m with
  | nil => cases hc
  | cons p rest ih =>
    obtain ⟨k', v⟩ := p
    by_cases h : k' = k₁
    · subst h
      simp [find_cons]
    · simp only [List.map_cons, if_neg h]
      rw [find_cons, if_neg h]
      refine ih ?_
      rw [containsKey_cons] at hc
      simpa [h] using hc

theorem find_upsertAttr (m : AttributeMap) (k₁ k : String) (v₁ : AttributeValue) :
    AttributeMap.find (m.upsertAttr k₁ v₁) k
      = if k₁ = k then some v₁ else AttributeMap.find m k := by
  unfold AttributeMap.upsertAttr
  by_cases hc : m.containsKey k₁
  · rw [if_pos hc]
    by_cases hk : k₁ = k
    · subst hk; rw [if_pos rfl, find_map_replace_self m k₁ v₁ hc]
    · rw [if_neg hk, find_map_replace_ne m k₁ k v₁ hk]
  · rw [if_neg hc, find_append]
    by_cases hk : k₁ = k
    · subst hk
      rw [(containsKey_eq_false_iff m k₁).mp (Bool.of_not_eq_true hc)]
      simp [find_cons, find_nil, Option.orElse]
    · cases h : AttributeMap.find m k <;>
        simp [find_cons, find_nil, hk, Option.orElse]

theorem find_foldl_insert (l : List (String × AttributeValue))
    (m : AttributeMap) (k : String) :
    AttributeMap.find
        (l.foldl (fun acc p => acc.insertAttr p.1 p.2) m) k
      = (AttributeMap.find m k).orElse (fun _ => AttributeMap.find l k) := by
  induction l generalizing m with
  | nil => cases h : AttributeMap.find m k <;> simp [find_nil, Option.orElse, h]
  | cons p l ih =>
    obtain ⟨k₁, v₁⟩ := p
    rw [List.foldl_cons]
    rw [ih, find_insertAttr]
    by_cases hk : k₁ = k <;> cases h : AttributeMap.find m k <;>
      simp [find_cons, hk, Option.orElse, h]

theorem find_foldl_upsert (l : List (String × AttributeValue))
    (m : AttributeMap) (k : String)
    (hnd : (l.map Prod.fst).Nodup) :
    AttributeMap.find
        (l.foldl (fun acc p => acc.upsertAttr p.1 p.2) m) k
      = (AttributeMap.find l k).orElse (fun _ => AttributeMap.find m k) := by
  induction l generalizing m with
  | nil => cases h : AttributeMap.find m k <;> simp [find_nil, Option.orElse, h]
  | cons p l ih =>
    obtain ⟨k₁, v₁⟩ := p
    simp only [List.map_cons, List.nodup_cons] at hnd
    rw [List.foldl_cons, ih _ hnd.2, find_upsertAttr]
    by_cases hk : k₁ = k
    · subst hk
      have hnone : AttributeMap.find l k₁ = none :=
        find_eq_none_of_not_mem_keys l k₁ hnd.1
      simp [find_cons, hnone, Option.orElse]
    · cases h : AttributeMap.find l k <;>
        simp [find_cons, hk, Option.orElse, h]

theorem find_foldl_merge_of_not_contains
    (l : List (String × AttributeValue)) (m : AttributeMap) (k : String)
    (b : Bool) (h : AttributeMap.containsKey l k = false) :
    AttributeMap.find
        (l.foldl
          (fun acc p => if b then acc.upsertAttr p.1 p.2 else acc.insertAttr p.1 p.2)
          m) k
      = AttributeMap.find m k := by
  induction l generalizing m with
  | nil => rfl
  | cons p l ih =>
    obtain ⟨k₁, v₁⟩ := p
    rw [containsKey_cons] at h
    simp only [Bool.or_eq_false_iff, decide_eq_false_iff_not] at h
    rw [List.foldl_cons, ih _ h.2]
    cases b with
    | true => simp [find_upsertAttr, h.1]
    | false =>
      rw [if_neg (by simp)]
      rw [find_insertAttr]
      cases hm : AttributeMap.find m k <;> simp [Option.orElse, h.1, hm]

theorem find_isSome_foldl_merge
    (l : List (String × AttributeValue)) (m : AttributeMap) (k : String)
    (b : Bool) (h : (AttributeMap.find m k).isSome = true) :
    (AttributeMap.find
        (l.foldl
          (fun acc p => if b then acc.upsertAttr p.1 p.2 else acc.insertAttr p.1 p.2)
          m) k).isSome = true := by
  induction l generalizing m with
  | nil => exact h
  | cons p l ih =>
    obtain ⟨k₁, v₁⟩ := p
    rw [List.foldl_cons]
    refine ih _ ?_
    cases b with
    | true =>
      rw [if_pos rfl, find_upsertAttr]
      by_cases hk : k₁ = k <;> simp [hk, h]
    | false =>
      rw [if_neg (by simp), find_insertAttr]
      cases hm : AttributeMap.find m k with
      | none => rw [hm] at h; cases h
      | some w => simp [Option.orElse, hm]

end AttributeMap

theorem attributes_eq_nil_of_isEmpty (res : Resource)
    (h : IsEmptyResource res = true) : res.attributes = [] := by
  unfold IsEmptyResource at h
  exact List.length_eq_zero.mp (by simpa using h)

theorem find_MergeResource_insertOnly (toRes fromRes : Resource) (k : String) :
    AttributeMap.find (MergeResource toRes fromRes false).attributes k
      = (AttributeMap.find toRes.attributes k).orElse
          (fun _ => AttributeMap.find fromRes.attributes k) := by
  unfold MergeResource
  by_cases he : IsEmptyResource fromRes = true
  · rw [if_pos he, attributes_eq_nil_of_isEmpty fromRes he]
    cases h : AttributeMap.find toRes.attributes k <;>
      simp [AttributeMap.find_nil, Option.orElse, h]
  · rw [if_neg he]
    have h := AttributeMap.find_foldl_insert fromRes.attributes toRes.attributes k
    simpa using h

theorem find_MergeResource_override (toRes fromRes : Resource) (k : String)
    (hnd : (fromRes.attributes.map Prod.fst).Nodup)
    (hk : AttributeMap.containsKey fromRes.attributes k = true) :
    AttributeMap.find (MergeResource toRes fromRes true).attributes k
      = AttributeMap.find fromRes.attributes k := by
  unfold MergeResource
  by_cases he : IsEmptyResource fromRes = true
  · rw [attributes_eq_nil_of_isEmpty fromRes he] at hk
    cases hk
  · rw [if_neg he]
    have h := AttributeMap.find_foldl_upsert fromRes.attributes toRes.attributes k hnd
    rcases hsome : AttributeMap.find fromRes.attributes k with _ | w
    · rw [(AttributeMap.containsKey_eq_false_iff fromRes.attributes k).mpr hsome] at hk
      cases hk
    · rw [hsome] at h
      simpa [Option.orElse, hsome] using h

theorem find_MergeResource_frame (toRes fromRes : Resource) (b : Bool) (k : String)
    (h : AttributeMap.containsKey fromRes.attributes k = false) :
    AttributeMap.find (MergeResource toRes fromRes b).attributes k
      = AttributeMap.find toRes.attributes k := by
  unfold MergeResource
  by_cases he : IsEmptyResource fromRes = true
  · rw [if_pos he]
  · rw [if_neg he]
    exact AttributeMap.find_foldl_merge_of_not_contains
      fromRes.attributes toRes.attributes k b h

theorem isSome_find_MergeResource (toRes fromRes : Resource) (b : Bool) (k : String)
    (h : (AttributeMap.find toRes.attributes k).isSome = true) :
    (AttributeMap.find (MergeResource toRes fromRes b).attributes k).isSome = true := by
  unfold MergeResource
  by_cases he : IsEmptyResource fromRes = true
  · rw [if_pos he]; exact h
  · rw [if_neg he]
    exact AttributeMap.find_isSome_foldl_merge
      fromRes.attributes toRes.attributes k b h

/-! Helper lemmas about the provider's memoization. -/

theorem Get_of_cached (p : ResourceProvider) (r : ResourceResult)
    (h : p.detectedResource = some r) :
    p.Get = ((r.resource, r.err), p, 0) := by
  unfold ResourceProvider.Get
  rw [h]

theorem getSeq_of_cached (p : ResourceProvider) (r : ResourceResult)
    (h : p.detectedResource = some r) :
    ∀ n, getSeq p n = (List.replicate n (r.resource, r.err), p, 0)
  | 0 => rfl
  | n + 1 => by
    simp only [getSeq]
    rw [Get_of_cached p r h]
    simp [getSeq_of_cached p r h n, List.replicate_succ]

theorem getSeq_fresh (timeout : Nat) (ds : List Detector) (n : Nat) :
    getSeq (NewResourceProvider timeout ds) (n + 1)
      = (List.replicate (n + 1)
            ((detectResource ds).1.resource, (detectResource ds).1.err),
         { timeout := timeout, detectors := ds,
           detectedResource := some (detectResource ds).1 },
         (detectResource ds).2) := by
  simp only [getSeq]
  have h1 : (NewResourceProvider timeout ds).Get
      = (((detectResource ds).1.resource, (detectResource ds).1.err),
         { timeout := timeout, detectors := ds,
           detectedResource := some (detectResource ds).1 },
         (detectResource ds).2) := rfl
  rw [h1]
  rw [getSeq_of_cached _ (detectResource ds).1 rfl n]
  simp [List.replicate_succ]

/-! Concrete fixtures for the unknown-detector-type scenario. -/

/-- A concrete registered detector (the detector "X" in the
unknown-type scenario). -/
def xDetector : Detector := { detect := .ok ⟨[("x.attr", .intVal 1)]⟩ }

/-- A registry in which only the type "x" is registered. -/
def xOnlyFactory : ResourceProviderFactory :=
  ⟨[("x", fun _ => .ok xDetector)]⟩

/-! The claims. -/

/-- C1: for every ResourceProvider, the detection pipeline executes
exactly once per provider instance regardless of repeated calls to
`Get`: over any `n + 1` successive calls on a fresh provider every
call returns the identical memoized (resource, error) pair, the
cached result is set once to the single run's outcome and never
recomputed or mutated, and the total number of `Detect` invocations
over all calls is exactly that of one run of the pipeline. -/
theorem c1_run_once_memoized (timeout : Nat) (ds : List Detector) (n : Nat) :
    getSeq (NewResourceProvider timeout ds) (n + 1)
      = (List.replicate (n + 1)
            ((detectResource ds).1.resource, (detectResource ds).1.err),
         { timeout := timeout, detectors := ds,
           detectedResource := some (detectResource ds).1 },
         (detectResource ds).2) :=
  getSeq_fresh timeout ds n

/-- C2: with detectors D1 (succeeding with any resource), D2 (failing
with any error `e`), D3 (arbitrary), every call to `Get` returns the
error `e` with the zero-value (empty) resource — no partial merge is
exposed — the failure is permanently cached, and the total number of
`Detect` invocations is 2, so D3's `Detect` is never invoked (indeed
the result does not depend on D3 at all). -/
theorem c2_abort_on_failure (timeout : Nat) (r1 : Resource) (e : GoError)
    (d3 : Detector) (n : Nat) :
    getSeq (NewResourceProvider timeout
        [{ detect := .ok r1 }, { detect := .error e }, d3]) (n + 1)
      = (List.replicate (n + 1) (NewResource, some e),
         { timeout := timeout,
           detectors := [{ detect := .ok r1 }, { detect := .error e }, d3],
           detectedResource := some { resource := NewResource, err := some e } },
         2) :=
  getSeq_fresh timeout [{ detect := .ok r1 }, { detect := .error e }, d3] n

/-- C3: with D1 producing (a ↦ 1) and D2 producing (a ↦ 2, b ↦ 2),
`Get` under insert-only merge returns exactly (a ↦ 1, b ↦ 2); and in
general an insert-only merge looks up a key first in the accumulated
target and only then in the later detector's output, so an earlier
detector's key is never overwritten or removed and a later detector
contributes exactly its keys absent from the target. -/
theorem c3_insert_only_merge :
    ((NewResourceProvider 0
        [{ detect := .ok ⟨[("a", .intVal 1)]⟩ },
         { detect := .ok ⟨[("a", .intVal 2), ("b", .intVal 2)]⟩ }]).Get.1
      = (⟨[("a", AttributeValue.intVal 1), ("b", AttributeValue.intVal 2)]⟩, none))
    ∧ (∀ (toRes fromRes : Resource) (k : String),
        AttributeMap.find (MergeResource toRes fromRes false).attributes k
          = (AttributeMap.find toRes.attributes k).orElse
              (fun _ => AttributeMap.find fromRes.attributes k)) :=
  ⟨rfl, find_MergeResource_insertOnly⟩

/-- C4 counterexample: requesting types `["x", "bogus"]` from a
registry that knows only "x" does fail with an error naming "bogus",
but detector "x" IS constructed first — the loop invokes its
constructor before reaching the unknown type, so the constructor
invocation list is `["x"]`, not empty as the claim asserts. -/
theorem c4_never_constructed_counterexample :
    (getDetectors xOnlyFactory (fun _ => ()) ["x", "bogus"]).1
        = .error (.invalidDetectorKey "bogus")
    ∧ (getDetectors xOnlyFactory (fun _ => ()) ["x", "bogus"]).2 = ["x"]
    ∧ ¬ (getDetectors xOnlyFactory (fun _ => ()) ["x", "bogus"]).2 = [] :=
  ⟨rfl, rfl, fun h => List.cons_ne_nil "x" [] h⟩

/-- C4 (amended): requesting `[x, u]` where `x` is registered (and its
constructor succeeds) and `u` is not, `CreateResourceProvider` fails
with an error naming `u` and returns no provider; detector `x`, being
listed before `u`, is constructed exactly once and then discarded,
and nothing after `u` would be constructed. -/
theorem c4_unknown_type_aborts (f : ResourceProviderFactory)
    (cfg : DetectorType → DetectorConfig) (timeout : Nat)
    (x u : DetectorType) (fx : DetectorFactory) (d : Detector)
    (hx : f.lookup x = some fx) (hd : fx (cfg x) = .ok d)
    (hu : f.lookup u = none) :
    getDetectors f cfg [x, u] = (.error (.invalidDetectorKey u), [x])
    ∧ CreateResourceProvider f timeout cfg [x, u]
        = (.error (.invalidDetectorKey u), [x]) := by
  have h1 : getDetectors f cfg [x, u] = (.error (.invalidDetectorKey u), [x]) := by
    simp only [getDetectors, hx, hd, hu]
  exact ⟨h1, by simp only [CreateResourceProvider, h1]⟩

/-- Witness for the amended C4 at the concrete registry. -/
theorem c4_unknown_type_aborts_witness :
    getDetectors xOnlyFactory (fun _ => ()) ["x", "nope"]
        = (.error (.invalidDetectorKey "nope"), ["x"])
    ∧ CreateResourceProvider xOnlyFactory 0 (fun _ => ()) ["x", "nope"]
        = (.error (.invalidDetectorKey "nope"), ["x"]) :=
  c4_unknown_type_aborts xOnlyFactory (fun _ => ()) 0 "x" "nope"
    (fun _ => .ok xDetector) xDetector rfl rfl rfl

/-- C5: merging (a ↦ 2, b ↦ 2) into (a ↦ 1) with `overrideTo = true`
yields exactly (a ↦ 2, b ↦ 2); and in general, for every key present
in the (key-unique) source, the merged target holds the source's
value for that key (last-write-wins). -/
theorem c5_override_merge :
    (MergeResource ⟨[("a", .intVal 1)]⟩
        ⟨[("a", .intVal 2), ("b", .intVal 2)]⟩ true
      = ⟨[("a", AttributeValue.intVal 2), ("b", AttributeValue.intVal 2)]⟩)
    ∧ (∀ (toRes fromRes : Resource) (k : String),
        (fromRes.attributes.map Prod.fst).Nodup →
        AttributeMap.containsKey fromRes.attributes k = true →
        AttributeMap.find (MergeResource toRes fromRes true).attributes k
          = AttributeMap.find fromRes.attributes k) :=
  ⟨rfl, fun toRes fromRes k hnd hk =>
    find_MergeResource_override toRes fromRes k hnd hk⟩

/-- Witness for C5's general part at a concrete merge. -/
theorem c5_override_merge_witness :
    (([("b", AttributeValue.intVal 2)].map Prod.fst).Nodup)
    ∧ AttributeMap.containsKey [("b", AttributeValue.intVal 2)] "b" = true
    ∧ AttributeMap.find
        (MergeResource ⟨[("a", AttributeValue.intVal 1)]⟩
          ⟨[("b", AttributeValue.intVal 2)]⟩ true).attributes "b"
      = AttributeMap.find [("b", AttributeValue.intVal 2)] "b" :=
  ⟨by simp, rfl,
    c5_override_merge.2 ⟨[("a", AttributeValue.intVal 1)]⟩
      ⟨[("b", AttributeValue.intVal 2)]⟩ "b" (by simp) rfl⟩

/-- C6: merging a source with zero attributes into any target under
either flag leaves the target completely unchanged, and
`IsEmptyResource` returns true exactly when the resource has zero
attributes. -/
theorem c6_empty_source_noop_and_isEmpty :
    (∀ (toRes : Resource) (b : Bool), MergeResource toRes ⟨[]⟩ b = toRes)
    ∧ (∀ res : Resource, IsEmptyResource res = true ↔ res.attributes = []) := by
  refine ⟨fun toRes b => rfl, fun res => ?_⟩
  unfold IsEmptyResource
  simp [List.length_eq_zero]

/-- C7: flattening a resource holding a boolean, an integer, a double,
a string, a nested map, an array, and an unrecognized (null-type)
attribute yields one plain entry per key with scalars kept, arrays
and maps recursively flattened, and the unrecognized type mapped to
the nil marker; in general the flattened map has exactly the
attribute keys, and every attribute appears flattened by
`UnwrapAttribute`. -/
theorem c7_flatten_shape :
    (AttributesToMap
        [("b", .boolVal true), ("i", .intVal 7),
         ("d", .doubleVal 4618441417868443648),
         ("s", .stringVal "hi"),
         ("m", .mapVal [("x", .intVal 1)]),
         ("arr", .arrayVal [.intVal 1, .stringVal "y"]),
         ("u", .nullVal)]
      = [("b", .pbool true), ("i", .pint 7),
         ("d", .pdouble 4618441417868443648),
         ("s", .pstring "hi"),
         ("m", .pmap [("x", PlainValue.pint 1)]),
         ("arr", .plist [.pint 1, PlainValue.pstring "y"]),
         ("u", PlainValue.pnil)])
    ∧ (∀ am : List (String × AttributeValue),
        (AttributesToMap am).map Prod.fst = am.map Prod.fst)
    ∧ (∀ (am : List (String × AttributeValue)) (k : String) (v : AttributeValue),
        (k, v) ∈ am → (k, UnwrapAttribute v) ∈ AttributesToMap am) := by
  refine ⟨rfl, fun am => ?_, fun am k v hmem => ?_⟩
  · induction am with
    | nil => rfl
    | cons p rest ih =>
      obtain ⟨k', v'⟩ := p
      simp only [AttributesToMap, List.map_cons, ih]
  · induction am with
    | nil => cases hmem
    | cons p rest ih =>
      obtain ⟨k', v'⟩ := p
      simp only [AttributesToMap, List.mem_cons]
      rcases List.mem_cons.mp hmem with h | h
      · left
        rw [Prod.mk.injEq] at h
        rw [h.1, h.2]
      · right
        exact ih h

/-- Witness for C7's membership part at a concrete attribute. -/
theorem c7_flatten_shape_witness :
    ("k", UnwrapAttribute (AttributeValue.boolVal true))
      ∈ AttributesToMap [("k", AttributeValue.boolVal true)] :=
  c7_flatten_shape.2.2 [("k", AttributeValue.boolVal true)] "k"
    (AttributeValue.boolVal true) (by simp)

/-- C9: a provider over an empty detector list succeeds on the first
`Get` with the empty resource and no error, performs zero `Detect`
invocations, and permanently caches that empty success for all later
calls. -/
theorem c9_empty_detector_list (timeout : Nat) (n : Nat) :
    getSeq (NewResourceProvider timeout []) (n + 1)
      = (List.replicate (n + 1) (NewResource, none),
         { timeout := timeout, detectors := [],
           detectedResource := some { resource := NewResource, err := none } },
         0) :=
  getSeq_fresh timeout [] n

/-- C10: merging never changes the target's value at a key absent from
the source and never removes a key the target already has, for both
values of the override flag. -/
theorem c10_merge_frame (toRes fromRes : Resource) (b : Bool) (k : String) :
    (AttributeMap.containsKey fromRes.attributes k = false →
      AttributeMap.find (MergeResource toRes fromRes b).attributes k
        = AttributeMap.find toRes.attributes k)
    ∧ ((AttributeMap.find toRes.attributes k).isSome = true →
      (AttributeMap.find (MergeResource toRes fromRes b).attributes k).isSome = true) :=
  ⟨find_MergeResource_frame toRes fromRes b k,
   isSome_find_MergeResource toRes fromRes b k⟩

/-- Witness for C10 at a concrete merge: the key "a", absent from the
source, keeps its value, and stays present. -/
theorem c10_merge_frame_witness :
    (AttributeMap.find
        (MergeResource ⟨[("a", AttributeValue.intVal 1)]⟩
          ⟨[("b", AttributeValue.intVal 2)]⟩ true).attributes "a"
      = AttributeMap.find [("a", AttributeValue.intVal 1)] "a")
    ∧ (AttributeMap.find
        (MergeResource ⟨[("a", AttributeValue.intVal 1)]⟩
          ⟨[("b", AttributeValue.intVal 2)]⟩ true).attributes "a").isSome = true :=
  ⟨(c10_merge_frame ⟨[("a", AttributeValue.intVal 1)]⟩
      ⟨[("b", AttributeValue.intVal 2)]⟩ true "a").1 rfl,
   (c10_merge_frame ⟨[("a", AttributeValue.intVal 1)]⟩
      ⟨[("b", AttributeValue.intVal 2)]⟩ true "a").2 rfl⟩

end ResourceDetection
